import Mathlib

/-!
Verification development for the FX forecasting pipeline.

Shallow embedding conventions:
* A calendar date is an integer: the number of days since a fixed Monday
  epoch.  Hence `d % 7` is the weekday in the Python convention
  (Monday = 0, ..., Friday = 4, Saturday = 5, Sunday = 6), matching
  `datetime.date.weekday()` and `pandas.DatetimeIndex.weekday`.
* A pandas `Series` with a `DatetimeIndex` is a list of
  `(date, value)` pairs; rate values are rationals (the floats in the
  source are finite IEEE values produced from stored decimals, so exact
  rational arithmetic models them; `NaN` is modelled by `Option`).
* Python exceptions are modelled with `Except String`.
-/

namespace Fx

/-- Maximum of a list of dates: models `DatetimeIndex.max()` /
`Series.index.max()`.  The source only calls it on non-empty indexes; the
`[]` case is an arbitrary default. -/
def idxMax : List ℤ → ℤ
  | [] => 0
  | [d] => d
  | d :: rest => max d (idxMax rest)

/-- Minimum of a list of dates: models `DatetimeIndex.min()`. -/
def idxMin : List ℤ → ℤ
  | [] => 0
  | [d] => d
  | d :: rest => min d (idxMin rest)

/-! ## apps/forecasting/services/weekly_cutoffs.py

The functions below only consult the index of the series, so they are
embedded over the bare index (`List ℤ`). -/

/-- Embeds `last_complete_friday` (weekly_cutoffs.py lines 23-42).

The source sorts the index (`idx = y.index.sort_values()`) before
filtering for Fridays and taking the maximum; sorting permutes the index
and the maximum is permutation-invariant, so it is omitted here. -/
def last_complete_friday (y : List ℤ) : Except String ℤ :=
  if y = [] then
    .error "Series is empty."
  else if y.all (fun d => d % 7 = 4) then
    .ok (idxMax y)
  else
    let fridays := y.filter (fun d => d % 7 = 4)
    if fridays = [] then
      .error "No Fridays found in series."
    else
      .ok (idxMax fridays)

/-- Embeds `next_friday` (weekly_cutoffs.py lines 44-47): the next
calendar Friday after a Friday is exactly 7 days later. -/
def next_friday (friday : ℤ) : ℤ :=
  friday + 7

/-! ## apps/forecasting/pipelines/prepare_series.py -/

/-- Fill policy of `load_series`: `Fill = Literal["none", "ffill_within"]`. -/
inductive Fill where
  | none_
  | ffill_within
deriving DecidableEq, Repr

/-- Frequency of `load_series`: `Freq = Literal["D", "W"]`. -/
inductive Freq where
  | D
  | W
deriving DecidableEq, Repr

/-- Monday-to-Friday test: a date is on the default business-day calendar
used by `pd.bdate_range(..., freq="C")` (custom business day with no
holidays, i.e. weekday < 5). -/
def isBusinessDay (d : ℤ) : Bool :=
  d % 7 < 5

/-- Embeds `pd.bdate_range(lo, hi, freq="C")`: every business day `d`
with `lo ≤ d ≤ hi`, ascending. -/
def bdateRange (lo hi : ℤ) : List ℤ :=
  ((List.range (hi - lo + 1).toNat).map (fun k : ℕ => lo + (k : ℤ))).filter isBusinessDay

/-- Embeds the date-range clipping of the rate queryset
(prepare_series.py lines 37-40): `date__gte=start` and `date__lte=end`,
both optional and inclusive. -/
def clipObs (obs : List (ℤ × ℚ)) (start? : Option ℤ) (end? : Option ℤ) : List (ℤ × ℚ) :=
  let obs1 := match start? with
    | none => obs
    | some st => obs.filter (fun p => st ≤ p.1)
  match end? with
  | none => obs1
  | some en => obs1.filter (fun p => p.1 ≤ en)

/-- Value of the reindexed-and-forward-filled series at calendar date `d`
(prepare_series.py line 58, `s.reindex(full_idx).ffill()`): the value of
the latest observation at a business day `≤ d`, if any.  Observations on
non-business days are dropped by the reindex onto the business calendar,
hence the `isBusinessDay` condition; `obs` is ascending (the queryset is
`order_by("date")` with unique dates), so the last eligible entry is the
most recent one. -/
def ffillAt (obs : List (ℤ × ℚ)) (d : ℤ) : Option ℚ :=
  ((obs.filter (fun p => decide (p.1 ≤ d) && isBusinessDay p.1)).getLast?).map Prod.snd

/-- Embeds the series construction of `load_series`
(prepare_series.py lines 21-70), for one (base, quote) pair whose stored
daily observations are `obs` (date-ascending, unique dates, as delivered
by `qs.values("date", "rate").order_by("date")`).

Currency/source lookup and the dataframe plumbing are identity on the
data and are not modelled; the result is the series `bundle.y`, with
`Option ℚ` values because forward-fill can leave NaN ahead of the first
business-day observation. -/
def load_series (obs : List (ℤ × ℚ)) (freq : Freq) (start? : Option ℤ)
    (end? : Option ℤ) (fill : Fill) : List (ℤ × Option ℚ) :=
  let obsC := clipObs obs start? end?
  if obsC.isEmpty then
    []
  else
    match freq with
    | .D =>
      match fill with
      | .ffill_within =>
        -- Build a business-day index up to the last observed date ONLY
        let last_obs := idxMax (obsC.map Prod.fst)
        let full_idx := bdateRange (idxMin (obsC.map Prod.fst)) last_obs
        full_idx.map (fun d => (d, ffillAt obsC d))
      | .none_ =>
        -- "none": return sparse daily observations (no fill)
        obsC.map (fun p => (p.1, some p.2))
    | .W =>
      -- strict_friday policy: keep ONLY actual Fridays
      (obsC.filter (fun p => p.1 % 7 = 4)).map (fun p => (p.1, some p.2))

/-! ## apps/forecasting/models_lib/types.py -/

/-- Embeds the `ForecastResult` dataclass.  `yhat` holds the point
forecasts positionally paired with `target_index` (in the source `yhat`
is a Series indexed by `target_index`); the optional `params` / `fit_info`
mappings carry no data in the baseline adapters and are omitted. -/
structure ForecastResult where
  target_index : List ℤ
  yhat : List ℚ
  model_name : String
  cutoff : ℤ
deriving DecidableEq, Repr

/-- Uniform adapter calling convention:
`predict(y_train, steps, target_index) -> ForecastResult`, with Python
exceptions as `Except String`. -/
abbrev Predictor :=
  List (ℤ × ℚ) → ℕ → Option (List ℤ) → Except String ForecastResult

/-- Embeds the constructor check of `pd.Series(values, index=idx)`:
pandas raises a ValueError when the data and index lengths differ. -/
def mkSeriesVals (vals : List ℚ) (idx : List ℤ) : Except String (List ℚ) :=
  if vals.length = idx.length then
    .ok vals
  else
    .error "Length of values does not match length of index"

/-- Message of the ValueError raised by `pd.date_range(periods=steps,
freq="D")`, the branch taken when `target_index` is omitted: only two of
the four range parameters are given. -/
def dateRangeUnderspecified : String :=
  "Of the four parameters: start, end, periods, and freq, exactly three must be specified"

namespace Naive

/-- Embeds `naive.predict` (naive.py lines 6-12): repeat the last
training value `steps` times over the supplied target index. -/
def predict (y_train : List (ℤ × ℚ)) (steps : ℕ)
    (target_index : Option (List ℤ)) : Except String ForecastResult :=
  match y_train.getLast? with
  | none => .error "y_train is empty"
  | some lastP =>
    match target_index with
    | none => .error dateRangeUnderspecified
    | some idx =>
      match mkSeriesVals (List.replicate steps lastP.2) idx with
      | .error e => .error e
      | .ok yhat =>
        .ok { target_index := idx, yhat := yhat, model_name := "naive",
              cutoff := idxMax (y_train.map Prod.fst) }

end Naive

namespace Drift

/-- Embeds `drift.predict` (drift.py lines 5-17): extrapolate the line
through the first and last training values, one slope step per forecast
step, over the supplied target index. -/
def predict (y_train : List (ℤ × ℚ)) (steps : ℕ)
    (target_index : Option (List ℤ)) : Except String ForecastResult :=
  match y_train with
  | [] => .error "y_train is empty"
  | p0 :: _ =>
    match target_index with
    | none => .error dateRangeUnderspecified
    | some idx =>
      let y0 : ℚ := p0.2
      let yT : ℚ := (y_train.getLast?.map Prod.snd).getD y0
      let n : ℕ := y_train.length
      let slope : ℚ := if n > 1 then (yT - y0) / ((n : ℚ) - 1) else 0
      let vals := (List.range steps).map (fun k : ℕ => yT + slope * ((k : ℚ) + 1))
      match mkSeriesVals vals idx with
      | .error e => .error e
      | .ok yhat =>
        .ok { target_index := idx, yhat := yhat, model_name := "drift",
              cutoff := idxMax (y_train.map Prod.fst) }

end Drift

/-! ## apps/forecasting/models_lib/registry.py -/

/-- Tags for the adapters held in `_REGISTRY`.  The baseline Python
adapters `naive`/`drift` are embedded above; `arima`, `prophet` and
`my_arima` wrap external fitting libraries and are identified by tag
only; R adapters carry their script name (`make_r_predictor(script)`). -/
inductive Adapter where
  | pyNaive
  | pyDrift
  | pyArima
  | pyProphet
  | pyMyArima
  | rScript (script : String)
deriving DecidableEq, Repr

/-- Embeds `_REGISTRY` (registry.py lines 8-27): the name → adapter
mapping, in source order. -/
def REGISTRY : List (String × Adapter) :=
  [("naive", .pyNaive),
   ("drift", .pyDrift),
   ("arima", .pyArima),
   ("prophet", .pyProphet),
   ("my_arima", .pyMyArima),
   ("average_r", .rScript "average_r.R"),
   ("drift_r", .rScript "drift_r.R")]

/-- ASCII lower-casing of one character, as `str.lower()` acts on the
model names in play (uppercase A-Z shifted by 32). -/
def lowerChar (c : Char) : Char :=
  if 65 ≤ c.toNat ∧ c.toNat ≤ 90 then Char.ofNat (c.toNat + 32) else c

/-- Embeds `str.lower()` for model-name keys. -/
def pyLower (s : String) : String :=
  ⟨s.data.map lowerChar⟩

/-- Embeds `get_model` (registry.py lines 30-34):
`key = (name or "naive").lower()`, then a registry lookup; an unknown key
raises a ValueError naming the available models.  `name` is `Option
String` because the Python callers may pass `None`; `None` and `""` are
both falsy, so both fall back to `"naive"`. -/
def get_model (name : Option String) : Except String Adapter :=
  let raw := match name with
    | none => "naive"
    | some s => if s = "" then "naive" else s
  let key := pyLower raw
  match REGISTRY.lookup key with
  | some adapter => .ok adapter
  | none => .error ("Unknown model " ++ raw ++ ". Available: " ++ String.intercalate ", " ((REGISTRY.map Prod.fst).mergeSort (· ≤ ·)))

/-! ## apps/forecasting/models_lib/r_model_adapter.py -/

/-- Result of `subprocess.run` as consumed by the adapter: exit code,
captured standard output and captured error stream. -/
structure ProcResult where
  returncode : ℤ
  stdout : String
  stderr : String
deriving DecidableEq, Repr

/-- Decoded JSON response of an R model script. -/
structure RResponse where
  yhat : List ℚ
  model_name : Option String
  cutoff : ℤ
deriving DecidableEq, Repr

/-- The two failure kinds of the external-process adapter
(r_model_adapter.py lines 87-102): a non-zero exit code, and exit code 0
with stdout that `json.loads` cannot parse.  Both are raised as
`RuntimeError` in the source, distinguished by their messages; here they
are distinct constructors carrying the same data as the messages. -/
inductive RAdapterError where
  | rscriptFailed (returncode : ℤ) (script : String) (stderr : String)
  | invalidJson (stdout : String) (stderr : String)
deriving DecidableEq, Repr

/-- The `RuntimeError` message built for each failure kind
(r_model_adapter.py lines 89-93 and 99-102). -/
def rAdapterErrorMessage : RAdapterError → String
  | .rscriptFailed rc script se =>
    "Rscript failed with exit code " ++ toString rc ++ " for script " ++ script
      ++ ".\nR STDERR:\n" ++ se
  | .invalidJson so se =>
    "Invalid JSON returned from Rscript.\nSTDOUT was:\n" ++ so ++ "\n\nSTDERR was:\n" ++ se

/-- Embeds the response handling of `_predict_r_model`
(r_model_adapter.py lines 87-102), as a pure function of the completed
subprocess result: non-zero exit raises `rscriptFailed`; on exit 0 the
stdout is passed to `json.loads`, modelled by the `jsonParse` argument
(the handler branches only on whether parsing succeeds), and a parse
failure raises the distinct `invalidJson`. -/
def r_handle_output (script : String) (proc : ProcResult)
    (jsonParse : String → Option RResponse) : Except RAdapterError RResponse :=
  if proc.returncode ≠ 0 then
    .error (.rscriptFailed proc.returncode script proc.stderr)
  else
    match jsonParse proc.stdout with
    | none => .error (.invalidJson proc.stdout proc.stderr)
    | some out => .ok out

/-! ## apps/forecasting/models.py (BacktestSlice) and
     apps/forecasting/services/backtest_service.py -/

/-- Embeds the data of a `BacktestSlice` row as built by the evaluator
(backtest_service.py lines 147-151): one evaluated
(date, actual, forecast) triple.  The run/base/quote foreign keys are
attached later by `run_backtests` and carry no evaluator logic. -/
structure BtSlice where
  date : ℤ
  actual : ℚ
  forecast : ℚ
deriving DecidableEq, Repr

/-- Embeds the database check constraints declared on `BacktestSlice`
(models.py lines 128-131): `actual > 0` and `forecast > 0`.  These are
schema-level constraints checked at insert time; `bulk_create(...,
ignore_conflicts=True)` only ignores unique-key conflicts, so a row
violating a check constraint still fails the insert. -/
def btSliceDbOk (s : BtSlice) : Bool :=
  decide (0 < s.actual) && decide (0 < s.forecast)

/-- Aggregate metrics of one backtest (backtest_service.py lines
156-161).  A float NaN is `none`.  `rmse_sq` is the quantity under
`np.sqrt` in the source (the mean of the squared errors): rationals have
no square root, and taking the root changes neither NaN-ness nor which
pairs enter the mean. -/
structure BtMetrics where
  rmse_sq : Option ℚ
  mae : Option ℚ
  mape : Option ℚ
  n : ℕ
deriving DecidableEq, Repr

/-- Embeds `np.nanmean`: the mean of the non-NaN entries, NaN when there
are none. -/
def nanmean (xs : List (Option ℚ)) : Option ℚ :=
  let v := xs.filterMap id
  if v.length = 0 then none else some (v.sum / (v.length : ℚ))

/-- Embeds the metric aggregation of `_rolling_backtest`
(backtest_service.py lines 156-161).  The source appends to
`y_true_vals` and `y_pred_vals` in lockstep, so the two arrays are
modelled as one list of (actual, predicted) pairs.  For MAPE the
denominator `np.where(y_true == 0, np.nan, y_true)` turns each
zero-actual term into NaN, which `np.nanmean` then skips; NaN times
100.0 stays NaN. -/
def btMetrics (pairs : List (ℚ × ℚ)) : BtMetrics :=
  { rmse_sq :=
      if pairs = [] then none
      else some (((pairs.map (fun p => (p.1 - p.2) ^ 2)).sum) / (pairs.length : ℚ))
    mae :=
      if pairs = [] then none
      else some (((pairs.map (fun p => |p.1 - p.2|)).sum) / (pairs.length : ℚ))
    mape :=
      if pairs = [] then none
      else (nanmean (pairs.map (fun p =>
        if p.1 = 0 then none else some |(p.1 - p.2) / p.1|))).map (· * 100)
    n := pairs.length }

/-- Embeds `y[y.index < dt]` (backtest_service.py line 121): all history
strictly before the target date. -/
def trainFor (y : List (ℤ × ℚ)) (dt : ℤ) : List (ℤ × ℚ) :=
  y.filter (fun p => p.1 < dt)

/-- Embeds `n_targets = min(max(1, opts.window), len(y) - 1)`
(backtest_service.py line 116).  The window is `ℤ`: a Python int that a
caller may pass as zero or negative, which the source clamps to 1. -/
def n_targets (y : List (ℤ × ℚ)) (window : ℤ) : ℕ :=
  min (max 1 window).toNat (y.length - 1)

/-- Embeds `target_dates = list(y.index[-n_targets:])`
(backtest_service.py line 117): the last `n_targets` dates, in the
ascending order of the sorted index. -/
def target_dates (y : List (ℤ × ℚ)) (window : ℤ) : List ℤ :=
  (y.map Prod.fst).drop (y.length - n_targets y window)

/-- Embeds the target-index construction (backtest_service.py lines
125-130): `[dt]` for horizon 1, else `pd.date_range(start=dt,
periods=horizon, freq=y.index.freq or "D")`.  The loaded sparse series
carries no `freq` attribute, so the source always falls back to daily
steps of one day. -/
def targetIndexFor (dt : ℤ) (horizon : ℕ) : List ℤ :=
  if horizon = 1 then [dt]
  else (List.range horizon).map (fun k : ℕ => dt + (k : ℤ))

/-- Embeds `Series.find` by label: `y.loc[d]` / `d in y.index`, returning
the first value at date `d` (dates are unique in the loaded series). -/
def seriesLookup (l : List (ℤ × ℚ)) (d : ℤ) : Option ℚ :=
  (l.find? (fun p => p.1 = d)).map Prod.snd

/-- Embeds one iteration of the walk-forward loop of `_rolling_backtest`
(backtest_service.py lines 119-151) for target date `dt`:
train on all strictly-prior history, skip the date when the training
slice is empty, invoke the adapter on the built target index, and record
a slice when the step-1 date has a known actual.  `.ok none` is a skipped
date; the adapter result is reindexed onto its own `target_index`
(`pd.Series(res.yhat, index=res.target_index)` is the identity there) and
`yhat.loc[step1_dt]` raises a KeyError when the step-1 date is missing
from it. -/
def backtestStep (P : Predictor) (y : List (ℤ × ℚ)) (horizon : ℕ)
    (dt : ℤ) : Except String (Option BtSlice) :=
  let train := trainFor y dt
  if train = [] then
    .ok none
  else
    let target_index := targetIndexFor dt horizon
    match P train horizon (some target_index) with
    | .error e => .error e
    | .ok res =>
    match target_index with
    | [] => .error "index 0 is out of bounds"
    | step1_dt :: _ =>
      match seriesLookup y step1_dt with
      | none => .ok none
      | some actual =>
        match seriesLookup (res.target_index.zip res.yhat) step1_dt with
        | none => .error "KeyError"
        | some pred => .ok (some { date := step1_dt, actual := actual, forecast := pred })

/-- The `for dt in target_dates` loop of `_rolling_backtest`, threading
the accumulated slice list; an adapter exception propagates and aborts
the backtest. -/
def backtestLoop (P : Predictor) (y : List (ℤ × ℚ)) (horizon : ℕ) :
    List ℤ → List BtSlice → Except String (List BtSlice)
  | [], acc => .ok acc
  | dt :: rest, acc =>
    match backtestStep P y horizon dt with
    | .error e => .error e
    | .ok none => backtestLoop P y horizon rest acc
    | .ok (some s) => backtestLoop P y horizon rest (acc ++ [s])

/-- Embeds `_rolling_backtest` (backtest_service.py lines 97-162).

The caller `_series_for_pair` sorts the index and the rate store has
unique dates, so `y` is taken already date-ascending (the internal
`y.sort_index()` is the identity there); rate values loaded from stored
decimals are never NaN, so `y.isna().all()` reduces to the length check.
The recorded metric pairs are exactly the (actual, forecast) pairs of
the recorded slices, appended in lockstep in the source. -/
def rolling_backtest (P : Predictor) (y : List (ℤ × ℚ)) (window : ℤ)
    (horizon : ℕ) : Except String (List BtSlice × BtMetrics) :=
  if y.length < 2 then
    .ok ([], btMetrics [])
  else
    (backtestLoop P y horizon (target_dates y window) []).map
      (fun slices => (slices, btMetrics (slices.map (fun s => (s.actual, s.forecast)))))

/-- The slice list of a backtest result (empty on a propagated
exception); convenience accessor for stating concrete facts. -/
def slicesOf (r : Except String (List BtSlice × BtMetrics)) : List BtSlice :=
  match r with
  | .ok (slices, _) => slices
  | .error _ => []

/-- A leakage monitor: behaves exactly like the wrapped adapter except
that it fails when the training series it is handed contains any date at
or after the first requested target date. -/
def withLeakCheck (P : Predictor) : Predictor :=
  fun train steps target_index =>
    match target_index with
    | some (t :: _) =>
      if train.countP (fun p => decide (t ≤ p.1)) = 0 then
        P train steps target_index
      else
        .error "leakage"
    | _ => P train steps target_index

/-- The weekly cutoff value (the payload of a successful
`last_complete_friday`), for stating facts without an existential. -/
def weekly_cutoff (y : List ℤ) : ℤ :=
  ((last_complete_friday y).toOption).getD 0

/-- Target-index of a successful adapter call (`none` on a raised
exception). -/
def forecastIndex (r : Except String ForecastResult) : Option (List ℤ) :=
  r.toOption.map ForecastResult.target_index

/-- Point-forecast values of a successful adapter call. -/
def forecastVals (r : Except String ForecastResult) : Option (List ℚ) :=
  r.toOption.map ForecastResult.yhat

/-- The actual value recorded for an evaluated target date (the value
`float(y.loc[step1_dt])`); defined value 0 is never used under the
hypotheses of the theorems below. -/
def actualAt (y : List (ℤ × ℚ)) (dt : ℤ) : ℚ :=
  (seriesLookup y dt).getD 0

/-- The naive forecast recorded for an evaluated target date: the last
value of the strictly-prior training slice. -/
def lastTrainValue (y : List (ℤ × ℚ)) (dt : ℤ) : ℚ :=
  (((trainFor y dt).getLast?).map Prod.snd).getD 0

/-- Series of length 50 (dates 0..49, values 1..50) for the concrete
window-clamp witness. -/
def series50 : List (ℤ × ℚ) :=
  (List.range 50).map (fun i : ℕ => ((i : ℤ), (i : ℚ) + 1))

/-! ## Theorems -/

theorem idxMax_mem : ∀ (l : List ℤ), l ≠ [] → idxMax l ∈ l
  | [], h => absurd rfl h
  | [d], _ => by simp [idxMax]
  | d :: e :: rest, _ => by
    have ih := idxMax_mem (e :: rest) (by simp)
    by_cases hc : idxMax (e :: rest) ≤ d
    · simp [idxMax, max_eq_left hc]
    · simp only [idxMax]
      rw [max_eq_right (le_of_not_le hc)]
      exact List.mem_cons_of_mem _ ih

theorem le_idxMax : ∀ (l : List ℤ), ∀ d ∈ l, d ≤ idxMax l
  | [], d, hd => by simp at hd
  | [a], d, hd => by simp at hd; simp [idxMax, hd]
  | a :: e :: rest, d, hd => by
    rcases List.mem_cons.mp hd with h | h
    · simp [idxMax, h]
    · have := le_idxMax (e :: rest) d h
      simp only [idxMax]
      exact le_trans this (le_max_right _ _)

theorem idxMin_le : ∀ (l : List ℤ), ∀ d ∈ l, idxMin l ≤ d
  | [], d, hd => by simp at hd
  | [a], d, hd => by simp at hd; simp [idxMin, hd]
  | a :: e :: rest, d, hd => by
    rcases List.mem_cons.mp hd with h | h
    · simp [idxMin, h]
    · have := idxMin_le (e :: rest) d h
      simp only [idxMin]
      exact le_trans (min_le_right _ _) this

/-- C9: `get_model` with a `None` or empty-string model name does not
raise the unknown-model error: `(name or "naive")` makes both falsy
inputs fall back to the key "naive", which resolves to the naive
adapter. -/
theorem c9_get_model_empty_name_falls_back_to_naive :
    get_model none = .ok Adapter.pyNaive ∧ get_model (some "") = .ok Adapter.pyNaive := by
  constructor <;> rfl

/-- C7: the external-process adapter fails in two distinguishable ways:
a non-zero exit code raises `rscriptFailed` whose message ends with the
captured error stream, while exit code 0 with unparsable stdout raises
the distinct `invalidJson`; the two error values are never equal, so
callers can tell the conditions apart. -/
theorem c7_r_adapter_failure_kinds (script : String) (proc : ProcResult)
    (jsonParse : String → Option RResponse) :
    (proc.returncode ≠ 0 →
      r_handle_output script proc jsonParse =
        .error (.rscriptFailed proc.returncode script proc.stderr) ∧
      ∃ pre, rAdapterErrorMessage (RAdapterError.rscriptFailed proc.returncode script proc.stderr) =
        pre ++ proc.stderr) ∧
    (proc.returncode = 0 → jsonParse proc.stdout = none →
      r_handle_output script proc jsonParse =
        .error (.invalidJson proc.stdout proc.stderr)) ∧
    (∀ rc s se so se2,
      RAdapterError.rscriptFailed rc s se ≠ RAdapterError.invalidJson so se2) := by
  refine ⟨fun hrc => ⟨?_, ?_⟩, fun hrc hparse => ?_, fun rc s se so se2 h => ?_⟩
  · simp [r_handle_output, hrc]
  · exact ⟨"Rscript failed with exit code " ++ toString proc.returncode ++ " for script "
      ++ script ++ ".\nR STDERR:\n", by simp [rAdapterErrorMessage, String.append_assoc]⟩
  · simp [r_handle_output, hrc, hparse]
  · cases h

/-- Witness for C7 at concrete subprocess outcomes: exit code 1 with
error stream "boom", and exit code 0 with stdout that fails to parse. -/
theorem c7_witness :
    r_handle_output "average_r.R" ⟨1, "", "boom"⟩ (fun _ => none) =
      .error (.rscriptFailed 1 "average_r.R" "boom") ∧
    r_handle_output "average_r.R" ⟨0, "not json", "warn"⟩ (fun _ => none) =
      .error (.invalidJson "not json" "warn") :=
  ⟨((c7_r_adapter_failure_kinds "average_r.R" ⟨1, "", "boom"⟩ (fun _ => none)).1
      (by decide)).1,
   (c7_r_adapter_failure_kinds "average_r.R" ⟨0, "not json", "warn"⟩ (fun _ => none)).2.1
      rfl rfl⟩

/-- C10: a non-empty series that is not Friday-only and contains no
Friday at all makes `last_complete_friday` raise "No Fridays found in
series." instead of returning a cutoff.  (A non-empty Friday-less series
can never take the Friday-only branch.) -/
theorem c10_no_fridays_raises (y : List ℤ) (hne : y ≠ [])
    (hnof : ∀ d ∈ y, d % 7 ≠ 4) :
    last_complete_friday y = .error "No Fridays found in series." := by
  unfold last_complete_friday
  rw [if_neg hne]
  have hall : ¬(y.all (fun d => decide (d % 7 = 4)) = true) := by
    intro hall
    match y, hne with
    | d :: rest, _ =>
      have := List.all_eq_true.mp hall d (List.mem_cons_self d rest)
      exact hnof d (List.mem_cons_self d rest) (by simpa using this)
  rw [if_neg hall, if_pos]
  exact List.filter_eq_nil_iff.mpr (fun d hd => by simpa using hnof d hd)

/-- Witness for C10: a Monday/Wednesday series (dates 0 and 2). -/
theorem c10_witness :
    last_complete_friday [0, 2] = .error "No Fridays found in series." :=
  c10_no_fridays_raises [0, 2] (by decide) (by decide)

/-- C5: on a non-empty series containing at least one Friday, the weekly
cutoff returned by `last_complete_friday` is the latest Friday actually
present in the index (never interpolated: it is a member of the index),
in both the Friday-only branch and the scan branch; and the weekly
target `next_friday(cutoff)` is exactly 7 calendar days after it. -/
theorem c5_weekly_cutoff_last_real_friday (y : List ℤ) (hne : y ≠ [])
    (hfri : ∃ d ∈ y, d % 7 = 4) :
    last_complete_friday y = .ok (weekly_cutoff y) ∧
    weekly_cutoff y ∈ y ∧
    weekly_cutoff y % 7 = 4 ∧
    (∀ d ∈ y, d % 7 = 4 → d ≤ weekly_cutoff y) ∧
    next_friday (weekly_cutoff y) = weekly_cutoff y + 7 := by
  obtain ⟨d0, hd0, hd0f⟩ := hfri
  by_cases hall : y.all (fun d => decide (d % 7 = 4)) = true
  · have hres : last_complete_friday y = .ok (idxMax y) := by
      unfold last_complete_friday
      rw [if_neg hne, if_pos hall]
    have hcut : weekly_cutoff y = idxMax y := by
      unfold weekly_cutoff
      rw [hres]; rfl
    rw [hres, hcut]
    refine ⟨rfl, idxMax_mem y hne, ?_, fun d hd _ => le_idxMax y d hd, rfl⟩
    have := List.all_eq_true.mp hall (idxMax y) (idxMax_mem y hne)
    simpa using this
  · have hmemf : d0 ∈ y.filter (fun d => decide (d % 7 = 4)) :=
      List.mem_filter.mpr ⟨hd0, by simpa using hd0f⟩
    have hfne : y.filter (fun d => decide (d % 7 = 4)) ≠ [] :=
      List.ne_nil_of_mem hmemf
    have hres : last_complete_friday y = .ok (idxMax (y.filter (fun d => decide (d % 7 = 4)))) := by
      unfold last_complete_friday
      rw [if_neg hne, if_neg hall, if_neg hfne]
    have hcut : weekly_cutoff y = idxMax (y.filter (fun d => decide (d % 7 = 4))) := by
      unfold weekly_cutoff
      rw [hres]; rfl
    have hmax := idxMax_mem _ hfne
    have hmy := List.mem_filter.mp hmax
    rw [hres, hcut]
    refine ⟨rfl, hmy.1, by simpa using hmy.2, fun d hd hdf => ?_, rfl⟩
    exact le_idxMax _ d (List.mem_filter.mpr ⟨hd, by simpa using hdf⟩)

/-- Witness for C5: a daily series over dates 2..11 whose Fridays are 4
and 11; the cutoff is 11 and the target 18. -/
theorem c5_witness :
    last_complete_friday [2, 3, 4, 7, 8, 9, 10, 11] = .ok (weekly_cutoff [2, 3, 4, 7, 8, 9, 10, 11]) ∧
    weekly_cutoff [2, 3, 4, 7, 8, 9, 10, 11] % 7 = 4 ∧
    next_friday (weekly_cutoff [2, 3, 4, 7, 8, 9, 10, 11]) = weekly_cutoff [2, 3, 4, 7, 8, 9, 10, 11] + 7 ∧
    weekly_cutoff [2, 3, 4, 7, 8, 9, 10, 11] = 11 :=
  have h := c5_weekly_cutoff_last_real_friday [2, 3, 4, 7, 8, 9, 10, 11]
    (by decide) (by decide)
  ⟨h.1, h.2.2.1, h.2.2.2.2, by decide⟩

/-- C2 counterexample: the naive adapter called with non-empty training
data, a supplied target index of length 1 and `steps = 2` does not
return a `ForecastResult` at all: the Series construction raises the
pandas length-mismatch ValueError, so the index contract does not hold
when `steps` differs from the target-index length. -/
theorem c2_counterexample_steps_mismatch :
    Naive.predict [((0 : ℤ), (1 : ℚ))] 2 (some [5]) =
      .error "Length of values does not match length of index" ∧
    Drift.predict [((0 : ℤ), (1 : ℚ))] 2 (some [5]) =
      .error "Length of values does not match length of index" := by
  constructor <;> rfl

/-- C2 (amended): for the registered baseline adapters (naive and
drift), calling `predict` with a non-empty `y_train`, a supplied
`target_index` of length k, and `steps = k`, returns a `ForecastResult`
whose forecast index equals `target_index` exactly and whose value list
has the same length k; when `steps ≠ k` the adapter raises instead. -/
theorem c2_adapter_index_contract (y_train : List (ℤ × ℚ)) (idx : List ℤ)
    (steps : ℕ) (hne : y_train ≠ []) (hlen : steps = idx.length) :
    forecastIndex (Naive.predict y_train steps (some idx)) = some idx ∧
    (forecastVals (Naive.predict y_train steps (some idx))).map List.length =
      some idx.length ∧
    forecastIndex (Drift.predict y_train steps (some idx)) = some idx ∧
    (forecastVals (Drift.predict y_train steps (some idx))).map List.length =
      some idx.length := by
  obtain ⟨lastP, hlast⟩ : ∃ p, y_train.getLast? = some p := by
    cases h : y_train.getLast? with
    | none => exact absurd (List.getLast?_eq_none_iff.mp h) hne
    | some p => exact ⟨p, rfl⟩
  have hmkn : mkSeriesVals (List.replicate steps lastP.2) idx =
      .ok (List.replicate steps lastP.2) := by
    unfold mkSeriesVals
    rw [if_pos (by simp [hlen])]
  have hnaive : Naive.predict y_train steps (some idx) =
      .ok { target_index := idx, yhat := List.replicate steps lastP.2,
            model_name := "naive", cutoff := idxMax (y_train.map Prod.fst) } := by
    unfold Naive.predict
    rw [hlast]
    simp only [hmkn]
  match y_train, hne with
  | p0 :: rest, _ =>
    refine ⟨?_, ?_, ?_, ?_⟩
    · rw [hnaive]; rfl
    · rw [hnaive]
      simp [forecastVals, Except.toOption, hlen]
    · unfold Drift.predict forecastIndex
      simp [mkSeriesVals, hlen, Except.toOption]
    · unfold Drift.predict forecastVals
      simp [mkSeriesVals, hlen, Except.toOption]

/-- Dropping the NaN placeholders of the MAPE term list is the same as
mapping the term function over the pairs with non-zero actuals. -/
theorem mapeTerms_filterMap (g : ℚ × ℚ → ℚ) :
    ∀ pairs : List (ℚ × ℚ),
      ((pairs.map (fun p => if p.1 = 0 then none else some (g p))).filterMap id) =
        (pairs.filter (fun p => p.1 ≠ 0)).map g := by
  intro pairs
  induction pairs with
  | nil => rfl
  | cons p t ih =>
    by_cases hp : p.1 = 0
    · simp [hp, ih]
    · simp [hp, ih]

/-- C3: in the metric aggregation, a recorded pair with actual = 0 is
excluded from the MAPE mean (the metrics of `pairs` have the same MAPE
as the metrics of the pairs with non-zero actuals) while `n` counts all
recorded pairs and the RMSE and MAE means run over all recorded pairs
including the zero-actual ones; with zero recorded pairs all three
metrics are NaN and `n` is 0. -/
theorem c3_mape_exclusion_rule (pairs : List (ℚ × ℚ)) :
    (btMetrics pairs).mape = (btMetrics (pairs.filter (fun p => p.1 ≠ 0))).mape ∧
    (btMetrics pairs).n = pairs.length ∧
    (btMetrics pairs).mae =
      (if pairs = [] then none
       else some ((pairs.map (fun p => |p.1 - p.2|)).sum / (pairs.length : ℚ))) ∧
    (btMetrics pairs).rmse_sq =
      (if pairs = [] then none
       else some ((pairs.map (fun p => (p.1 - p.2) ^ 2)).sum / (pairs.length : ℚ))) ∧
    (pairs = [] → btMetrics pairs = ⟨none, none, none, 0⟩) := by
  have hproj : ∀ ps : List (ℚ × ℚ), (btMetrics ps).mape =
      (if ps = [] then none
       else (nanmean (ps.map (fun p =>
         if p.1 = 0 then none else some |(p.1 - p.2) / p.1|))).map (· * 100)) :=
    fun ps => rfl
  refine ⟨?_, rfl, rfl, rfl, fun h => by subst h; rfl⟩
  rw [hproj, hproj]
  by_cases hnil : pairs = []
  · subst hnil; rfl
  · rw [if_neg hnil]
    simp only [nanmean]
    rw [mapeTerms_filterMap, mapeTerms_filterMap]
    have hff : (pairs.filter (fun p => p.1 ≠ 0)).filter (fun p => p.1 ≠ 0) =
        pairs.filter (fun p => p.1 ≠ 0) :=
      List.filter_eq_self.mpr (fun a ha => (List.mem_filter.mp ha).2)
    rw [hff]
    by_cases hfnil : pairs.filter (fun p => p.1 ≠ 0) = []
    · rw [if_pos hfnil, hfnil]
      rfl
    · rw [if_neg hfnil]

/-- Every date in a business-day range lies between its bounds. -/
theorem mem_bdateRange_bounds {lo hi d : ℤ} (hd : d ∈ bdateRange lo hi) :
    lo ≤ d ∧ d ≤ hi := by
  unfold bdateRange at hd
  obtain ⟨hmem, _⟩ := List.mem_filter.mp hd
  obtain ⟨k, hk, hdk⟩ := List.mem_map.mp hmem
  have hk2 : (k : ℤ) < hi - lo + 1 := Int.lt_toNat.mp (List.mem_range.mp hk)
  subst hdk
  omega

/-- Clipping only removes observations. -/
theorem mem_of_mem_clipObs {obs : List (ℤ × ℚ)} {start? end? : Option ℤ}
    {p : ℤ × ℚ} (hp : p ∈ clipObs obs start? end?) : p ∈ obs := by
  unfold clipObs at hp
  cases start? <;> cases end? <;> simp_all [List.mem_filter]

/-- C6: with the forward-fill-within-range policy, the daily series
index is exactly the contiguous business-day calendar from the first to
the last observed date (observed within the requested range), so every
produced date lies between the minimum and maximum observed dates and
never after the overall maximum observed date — regardless of the
requested end-of-range. -/
theorem c6_ffill_never_extends_past_last_observation (obs : List (ℤ × ℚ))
    (start? end? : Option ℤ) (hne : clipObs obs start? end? ≠ []) :
    (load_series obs .D start? end? .ffill_within).map Prod.fst =
      bdateRange (idxMin ((clipObs obs start? end?).map Prod.fst))
        (idxMax ((clipObs obs start? end?).map Prod.fst)) ∧
    (∀ d ∈ (load_series obs .D start? end? .ffill_within).map Prod.fst,
      idxMin ((clipObs obs start? end?).map Prod.fst) ≤ d ∧
      d ≤ idxMax ((clipObs obs start? end?).map Prod.fst) ∧
      d ≤ idxMax (obs.map Prod.fst)) := by
  have hempty : (clipObs obs start? end?).isEmpty = false := by
    cases h : clipObs obs start? end? with
    | nil => exact absurd h hne
    | cons a t => rfl
  have hindex : (load_series obs .D start? end? .ffill_within).map Prod.fst =
      bdateRange (idxMin ((clipObs obs start? end?).map Prod.fst))
        (idxMax ((clipObs obs start? end?).map Prod.fst)) := by
    simp only [load_series, hempty, Bool.false_eq_true, if_false, List.map_map]
    exact List.map_id'' (congrFun rfl) _
  refine ⟨hindex, fun d hd => ?_⟩
  rw [hindex] at hd
  obtain ⟨hlo, hhi⟩ := mem_bdateRange_bounds hd
  refine ⟨hlo, hhi, le_trans hhi ?_⟩
  have hmax_mem := idxMax_mem ((clipObs obs start? end?).map Prod.fst)
    (by simpa using hne)
  obtain ⟨p, hp, hpd⟩ := List.mem_map.mp hmax_mem
  have hpobs : p ∈ obs := mem_of_mem_clipObs hp
  have : p.1 ∈ obs.map Prod.fst := List.mem_map.mpr ⟨p, hpobs, rfl⟩
  rw [← hpd]
  exact le_idxMax _ _ this

/-- Witness for C6: observations on dates 0, 3, 7 with a requested end
of range of 100: the produced index is the business days 0..4 and 7,
and every produced date stays at or below the last observed date 7. -/
theorem c6_witness :
    (load_series [((0 : ℤ), (1 : ℚ)), (3, 2), (7, 3)] .D none (some 100) .ffill_within).map
        Prod.fst =
      bdateRange (idxMin ((clipObs [((0 : ℤ), (1 : ℚ)), (3, 2), (7, 3)] none (some 100)).map Prod.fst))
        (idxMax ((clipObs [((0 : ℤ), (1 : ℚ)), (3, 2), (7, 3)] none (some 100)).map Prod.fst)) ∧
    (load_series [((0 : ℤ), (1 : ℚ)), (3, 2), (7, 3)] .D none (some 100) .ffill_within).map
        Prod.fst = [0, 1, 2, 3, 4, 7] :=
  ⟨(c6_ffill_never_extends_past_last_observation [((0 : ℤ), (1 : ℚ)), (3, 2), (7, 3)]
      none (some 100) (by decide)).1, by decide⟩

/-- Witness for C2 (amended) at `y_train = [(0,3),(1,4)]`,
`target_index = [2,3,4]`, `steps = 3`. -/
theorem c2_witness :
    forecastIndex (Naive.predict [((0 : ℤ), (3 : ℚ)), (1, 4)] 3 (some [2, 3, 4])) =
      some [2, 3, 4] ∧
    (forecastVals (Naive.predict [((0 : ℤ), (3 : ℚ)), (1, 4)] 3 (some [2, 3, 4]))).map
      List.length = some 3 ∧
    forecastIndex (Drift.predict [((0 : ℤ), (3 : ℚ)), (1, 4)] 3 (some [2, 3, 4])) =
      some [2, 3, 4] ∧
    (forecastVals (Drift.predict [((0 : ℤ), (3 : ℚ)), (1, 4)] 3 (some [2, 3, 4]))).map
      List.length = some 3 :=
  c2_adapter_index_contract [((0 : ℤ), (3 : ℚ)), (1, 4)] [2, 3, 4] 3 (by decide) rfl

/-- The training slice cut strictly before `dt` contains no date `≥ dt`. -/
theorem trainFor_countP_zero (y : List (ℤ × ℚ)) (dt : ℤ) :
    (trainFor y dt).countP (fun p => decide (dt ≤ p.1)) = 0 := by
  rw [List.countP_eq_zero]
  intro p hp
  have hlt := (List.mem_filter.mp hp).2
  simp only [decide_eq_true_eq] at hlt ⊢
  omega

/-- The first entry of the built target index is the target date itself,
for every horizon producing a non-empty index. -/
theorem targetIndexFor_head (dt : ℤ) (h : ℕ) {t : ℤ} {rest : List ℤ}
    (heq : targetIndexFor dt h = t :: rest) : t = dt := by
  unfold targetIndexFor at heq
  by_cases h1 : h = 1
  · rw [if_pos h1] at heq
    exact (List.cons.injEq _ _ _ _ ▸ heq).1.symm
  · rw [if_neg h1] at heq
    cases h with
    | zero => simp at heq
    | succ m =>
      rw [List.range_succ_eq_map] at heq
      simp only [List.map_cons] at heq
      have := (List.cons.injEq _ _ _ _ ▸ heq).1
      omega

/-- Wrapping the adapter in the leakage monitor never changes one
backtest step: the training slice handed over contains no date at or
after the first target date of the step, so the monitor always passes the
call through. -/
theorem backtestStep_withLeakCheck (P : Predictor) (y : List (ℤ × ℚ))
    (h : ℕ) (dt : ℤ) :
    backtestStep (withLeakCheck P) y h dt = backtestStep P y h dt := by
  have hP : withLeakCheck P (trainFor y dt) h (some (targetIndexFor dt h)) =
      P (trainFor y dt) h (some (targetIndexFor dt h)) := by
    unfold withLeakCheck
    cases heq : targetIndexFor dt h with
    | nil => rfl
    | cons t rest =>
      have ht : t = dt := targetIndexFor_head dt h heq
      subst ht
      exact if_pos (trainFor_countP_zero y t)
  simp only [backtestStep, hP]

/-- Loop version of the leakage-monitor transparency. -/
theorem backtestLoop_withLeakCheck (P : Predictor) (y : List (ℤ × ℚ)) (h : ℕ) :
    ∀ (ts : List ℤ) (acc : List BtSlice),
      backtestLoop (withLeakCheck P) y h ts acc = backtestLoop P y h ts acc
  | [], _ => rfl
  | dt :: rest, acc => by
    unfold backtestLoop
    rw [backtestStep_withLeakCheck]
    cases backtestStep P y h dt with
    | error e => rfl
    | ok o =>
      cases o with
      | none => exact backtestLoop_withLeakCheck P y h rest acc
      | some s => exact backtestLoop_withLeakCheck P y h rest (acc ++ [s])

/-- C1: the backtest evaluator trains only on the strict past.  First,
the training slice for any target date `dt` contains zero dates `≥ dt`
(the count of such entries is 0).  Second — covering every input series,
window, horizon and model adapter at once — running the evaluator with
an adapter wrapped in the leakage monitor (which fails the call if the
training series contains any date at or after the first target date) is
indistinguishable from running it with the bare adapter: no adapter
invocation ever sees data at or past its target. -/
theorem c1_backtest_train_strictly_past (y : List (ℤ × ℚ)) (window : ℤ) :
    (∀ dt : ℤ, (trainFor y dt).countP (fun p => decide (dt ≤ p.1)) = 0) ∧
    (∀ (P : Predictor) (horizon : ℕ),
      rolling_backtest (withLeakCheck P) y window horizon =
        rolling_backtest P y window horizon) := by
  refine ⟨fun dt => trainFor_countP_zero y dt, fun P horizon => ?_⟩
  unfold rolling_backtest
  by_cases hlen : y.length < 2
  · rw [if_pos hlen, if_pos hlen]
  · rw [if_neg hlen, if_neg hlen, backtestLoop_withLeakCheck]

/-- Membership in a drop by at least one position lands in the tail. -/
theorem mem_tail_of_mem_drop {α : Type} {l : List α} {k : ℕ} {a : α}
    (hk : 1 ≤ k) (h : a ∈ l.drop k) : a ∈ l.tail := by
  cases l with
  | nil => simp at h
  | cons b t =>
    cases k with
    | zero => omega
    | succ m =>
      rw [List.drop_succ_cons] at h
      exact List.mem_of_mem_drop h

/-- On a strictly-ascending series of length at least 2, every evaluated
target date has a non-empty training slice: the clamp
`n_targets ≤ len - 1` keeps the first series date out of the target
list, so that date is always strictly prior training data. -/
theorem trainFor_ne_nil_of_mem_targets {y : List (ℤ × ℚ)}
    (hs : List.Pairwise (· < ·) (y.map Prod.fst)) (h2 : 2 ≤ y.length)
    {w dt : ℤ} (hdt : dt ∈ target_dates y w) :
    trainFor y dt ≠ [] := by
  match y, hs, h2, hdt with
  | p :: rest, hs, h2, hdt =>
    have hmin : n_targets (p :: rest) w ≤ (p :: rest).length - 1 :=
      min_le_right _ _
    have hk : 1 ≤ (p :: rest).length - n_targets (p :: rest) w := by
      have h2 : 2 ≤ (p :: rest).length := h2
      omega
    unfold target_dates at hdt
    have hdt2 : dt ∈ ((p :: rest).map Prod.fst).tail :=
      mem_tail_of_mem_drop hk hdt
    have hdt3 : dt ∈ rest.map Prod.fst := by simpa using hdt2
    have hlt : p.1 < dt := by
      rw [List.map_cons] at hs
      exact (List.pairwise_cons.mp hs).1 dt hdt3
    exact List.ne_nil_of_mem
      (List.mem_filter.mpr ⟨List.mem_cons_self p rest, by simp [hlt]⟩)

/-- A date present in the series index is found by the label lookup, and
the found value is a value of the series. -/
theorem seriesLookup_of_mem {y : List (ℤ × ℚ)} {dt : ℤ}
    (hdt : dt ∈ y.map Prod.fst) :
    seriesLookup y dt = some (actualAt y dt) ∧ (dt, actualAt y dt) ∈ y := by
  induction y with
  | nil => simp at hdt
  | cons p t ih =>
    by_cases hp : p.1 = dt
    · have hfind : (p :: t).find? (fun q => decide (q.1 = dt)) = some p :=
        List.find?_cons_of_pos t (by simp [hp])
      have hlook : seriesLookup (p :: t) dt = some p.2 := by
        unfold seriesLookup
        rw [hfind]
        rfl
      have hact : actualAt (p :: t) dt = p.2 := by
        unfold actualAt
        rw [hlook]
        rfl
      refine ⟨by rw [hlook, hact], ?_⟩
      rw [hact, ← hp]
      exact List.mem_cons_self p t
    · have hdt2 : dt ∈ t.map Prod.fst := by
        rw [List.map_cons] at hdt
        rcases List.mem_cons.mp hdt with h | h
        · exact absurd h.symm hp
        · exact h
      have hfind : (p :: t).find? (fun q => decide (q.1 = dt)) =
          t.find? (fun q => decide (q.1 = dt)) :=
        List.find?_cons_of_neg t (by simp [hp])
      have hlook : seriesLookup (p :: t) dt = seriesLookup t dt := by
        unfold seriesLookup
        rw [hfind]
      have hact : actualAt (p :: t) dt = actualAt t dt := by
        unfold actualAt
        rw [hlook]
      obtain ⟨ih1, ih2⟩ := ih hdt2
      exact ⟨by rw [hlook, hact, ih1], by rw [hact]; exact List.mem_cons_of_mem p ih2⟩

/-- One backtest step of the naive adapter at horizon 1: the recorded
slice pairs the actual value at the target date with the last value of
the strictly-prior training slice. -/
theorem backtestStep_naive {y : List (ℤ × ℚ)} {w dt : ℤ}
    (hs : List.Pairwise (· < ·) (y.map Prod.fst)) (h2 : 2 ≤ y.length)
    (hdt : dt ∈ target_dates y w) :
    backtestStep Naive.predict y 1 dt =
      .ok (some { date := dt, actual := actualAt y dt,
                  forecast := lastTrainValue y dt }) := by
  have htr : trainFor y dt ≠ [] := trainFor_ne_nil_of_mem_targets hs h2 hdt
  obtain ⟨lastP, hlast⟩ : ∃ p, (trainFor y dt).getLast? = some p := by
    cases h : (trainFor y dt).getLast? with
    | none => exact absurd (List.getLast?_eq_none_iff.mp h) htr
    | some p => exact ⟨p, rfl⟩
  have hlastval : lastTrainValue y dt = lastP.2 := by
    unfold lastTrainValue
    rw [hlast]
    rfl
  have hdty : dt ∈ y.map Prod.fst := by
    unfold target_dates at hdt
    exact List.mem_of_mem_drop hdt
  obtain ⟨hlook, _⟩ := seriesLookup_of_mem hdty
  have hnaive : Naive.predict (trainFor y dt) 1 (some [dt]) =
      .ok { target_index := [dt], yhat := [lastP.2], model_name := "naive",
            cutoff := idxMax ((trainFor y dt).map Prod.fst) } := by
    unfold Naive.predict
    rw [hlast]
    rfl
  have hzip : seriesLookup ([dt].zip [lastP.2]) dt = some lastP.2 := by
    unfold seriesLookup
    simp
  simp only [backtestStep]
  rw [if_neg htr]
  have htgt : targetIndexFor dt 1 = [dt] := rfl
  rw [htgt, hnaive]
  simp only [hlook, hzip, hlastval]

/-- The walk-forward loop, when every step succeeds with a recorded
slice, returns the accumulated slices followed by one slice per target
date in order. -/
theorem backtestLoop_ok_of_steps {P : Predictor} {y : List (ℤ × ℚ)} {h : ℕ}
    (g : ℤ → BtSlice) :
    ∀ (ts : List ℤ) (acc : List BtSlice),
      (∀ dt ∈ ts, backtestStep P y h dt = .ok (some (g dt))) →
      backtestLoop P y h ts acc = .ok (acc ++ ts.map g)
  | [], acc, _ => by simp [backtestLoop]
  | dt :: rest, acc, hsteps => by
    unfold backtestLoop
    rw [hsteps dt (List.mem_cons_self dt rest)]
    show backtestLoop P y h rest (acc ++ [g dt]) = _
    rw [backtestLoop_ok_of_steps g rest (acc ++ [g dt])
      (fun d hd => hsteps d (List.mem_cons_of_mem _ hd))]
    simp

/-- Full characterization of the naive walk-forward backtest at horizon
1 on a strictly-ascending series: one slice per clamped target date,
pairing the actual value with the last strictly-prior value, metrics
aggregated over exactly those pairs. -/
theorem rolling_backtest_naive (y : List (ℤ × ℚ)) (w : ℤ)
    (hs : List.Pairwise (· < ·) (y.map Prod.fst)) (h2 : 2 ≤ y.length) :
    rolling_backtest Naive.predict y w 1 =
      .ok ((target_dates y w).map (fun dt =>
          { date := dt, actual := actualAt y dt, forecast := lastTrainValue y dt }),
        btMetrics (((target_dates y w).map (fun dt =>
          ({ date := dt, actual := actualAt y dt,
             forecast := lastTrainValue y dt } : BtSlice))).map
          (fun s => (s.actual, s.forecast)))) := by
  unfold rolling_backtest
  rw [if_neg (by omega)]
  rw [backtestLoop_ok_of_steps
    (fun dt => { date := dt, actual := actualAt y dt, forecast := lastTrainValue y dt })
    (target_dates y w) [] (fun dt hdt => backtestStep_naive hs h2 hdt)]
  rfl

/-- C4 counterexample: a requested window of 0 on a series of length 2
is clamped up to 1 by `max(1, window)`, so 1 target is evaluated where
the formula `min(W, len - 1)` of the claim demands 0. -/
theorem c4_counterexample_window_zero :
    (slicesOf (rolling_backtest Naive.predict [((0 : ℤ), (1 : ℚ)), (1, 2)] 0 1)).length ≠
      min ((0 : ℤ)).toNat ([((0 : ℤ), (1 : ℚ)), (1, 2)].length - 1) := by
  decide

/-- C4 (amended): for every strictly-ascending series of length at
least 2 and every requested window `W ≥ 1`, the evaluator records
exactly `min(W, len - 1)` slices, one per target date, and those dates
are the last `min(W, len - 1)` series dates in ascending order.  (For
`W ≤ 0` the source clamps the window up to 1 via `max(1, window)`
instead of evaluating `min(W, len - 1)` targets.) -/
theorem c4_window_clamp (y : List (ℤ × ℚ)) (w : ℤ)
    (hs : List.Pairwise (· < ·) (y.map Prod.fst)) (h2 : 2 ≤ y.length)
    (hw : 1 ≤ w) :
    (slicesOf (rolling_backtest Naive.predict y w 1)).map BtSlice.date =
      target_dates y w ∧
    (slicesOf (rolling_backtest Naive.predict y w 1)).length =
      min w.toNat (y.length - 1) ∧
    List.Pairwise (· < ·)
      ((slicesOf (rolling_backtest Naive.predict y w 1)).map BtSlice.date) := by
  have hsl : slicesOf (rolling_backtest Naive.predict y w 1) =
      (target_dates y w).map (fun dt =>
        { date := dt, actual := actualAt y dt, forecast := lastTrainValue y dt }) := by
    rw [rolling_backtest_naive y w hs h2]
    rfl
  have hdates : ((target_dates y w).map (fun dt =>
      ({ date := dt, actual := actualAt y dt,
         forecast := lastTrainValue y dt } : BtSlice))).map BtSlice.date =
      target_dates y w := by
    rw [List.map_map]
    exact List.map_id'' (congrFun rfl) _
  refine ⟨by rw [hsl, hdates], ?_, ?_⟩
  · rw [hsl, List.length_map]
    unfold target_dates
    rw [List.length_drop, List.length_map]
    have hn : n_targets y w ≤ y.length :=
      le_trans (min_le_right _ _) (Nat.sub_le _ _)
    rw [Nat.sub_sub_self hn]
    unfold n_targets
    rw [max_eq_right hw]
  · rw [hsl, hdates]
    unfold target_dates
    exact hs.sublist (List.drop_sublist _ _)

/-- Witness for C4 (amended): a 50-point series with a requested window
of 1000 evaluates exactly 49 targets — `len - 1`, not 1000 and not an
error. -/
theorem c4_witness :
    (slicesOf (rolling_backtest Naive.predict series50 1000 1)).length =
      min ((1000 : ℤ)).toNat (series50.length - 1) ∧
    min ((1000 : ℤ)).toNat (series50.length - 1) = 49 :=
  ⟨(c4_window_clamp series50 1000 (by decide) (by decide) (by decide)).2.1,
   by decide⟩

/-- C8 counterexample: the evaluator itself performs no positivity
check.  On the series [(0, 5), (1, 0)] the recorded slice has
actual = 0, which violates strict positivity and fails the database
check constraints of `BacktestSlice`; it is nevertheless produced (and
enters the metric pairs, where the MAPE rule of C3 is what handles
it). -/
theorem c8_counterexample_zero_actual_slice :
    slicesOf (rolling_backtest Naive.predict [((0 : ℤ), (5 : ℚ)), (1, 0)] 1 1) =
      [{ date := 1, actual := 0, forecast := 5 }] ∧
    btSliceDbOk { date := 1, actual := 0, forecast := 5 } = false := by
  constructor <;> decide

/-- C8 (amended): strict positivity of slices is enforced by the
database check constraints, not by the evaluator; the evaluator
preserves it when the data respects it.  On a strictly-ascending series
whose rates are all strictly positive, every slice the naive backtest
records satisfies the `BacktestSlice` check constraints
(actual > 0 and forecast > 0). -/
theorem c8_slices_positive_on_positive_series (y : List (ℤ × ℚ)) (w : ℤ)
    (hs : List.Pairwise (· < ·) (y.map Prod.fst)) (h2 : 2 ≤ y.length)
    (hpos : ∀ p ∈ y, 0 < p.2) :
    (slicesOf (rolling_backtest Naive.predict y w 1)).all btSliceDbOk = true := by
  have hsl : slicesOf (rolling_backtest Naive.predict y w 1) =
      (target_dates y w).map (fun dt =>
        { date := dt, actual := actualAt y dt, forecast := lastTrainValue y dt }) := by
    rw [rolling_backtest_naive y w hs h2]
    rfl
  rw [hsl, List.all_eq_true]
  intro s hsmem
  obtain ⟨dt, hdtmem, rfl⟩ := List.mem_map.mp hsmem
  have hdty : dt ∈ y.map Prod.fst := by
    unfold target_dates at hdtmem
    exact List.mem_of_mem_drop hdtmem
  obtain ⟨_, hmem⟩ := seriesLookup_of_mem hdty
  have hact : 0 < actualAt y dt := hpos _ hmem
  have htr : trainFor y dt ≠ [] := trainFor_ne_nil_of_mem_targets hs h2 hdtmem
  obtain ⟨lastP, hlast⟩ : ∃ p, (trainFor y dt).getLast? = some p := by
    cases h : (trainFor y dt).getLast? with
    | none => exact absurd (List.getLast?_eq_none_iff.mp h) htr
    | some p => exact ⟨p, rfl⟩
  have hly : lastP ∈ y :=
    (List.mem_filter.mp (List.mem_of_mem_getLast? (Option.mem_def.mpr hlast))).1
  have hfc : 0 < lastTrainValue y dt := by
    unfold lastTrainValue
    rw [hlast]
    exact hpos _ hly
  unfold btSliceDbOk
  simp [hact, hfc]

/-- Witness for C8 (amended): a positive ascending three-point series;
all recorded slices pass the check constraints. -/
theorem c8_witness :
    (slicesOf (rolling_backtest Naive.predict
      [((0 : ℤ), (2 : ℚ)), (1, 3), (2, 5)] 2 1)).all btSliceDbOk = true :=
  c8_slices_positive_on_positive_series [((0 : ℤ), (2 : ℚ)), (1, 3), (2, 5)] 2
    (by decide) (by decide) (by decide)

end Fx
